import Mathlib

/-!
# Verification of the depsweep dependency-usage analysis engine

Shallow embedding of the engine's core functions, translated from the
TypeScript source (`src/index.ts`, `src/helpers.ts` / the unnamed parts of
the repository), together with proofs and refutations of the specification's
claims about them.

Strings are modelled as `List Char` (named `Str`), so that JavaScript's
`split`, `startsWith`, `includes` and `replace` have direct executable
counterparts with provable algebraic laws.  JavaScript exceptions are
modelled with `Except Unit`; `undefined` holes are modelled with `Option`.
-/

/-- JavaScript strings, modelled as lists of characters. -/
abbrev Str := List Char

/-- Coerce a Lean string literal to the `Str` model. -/
def str (s : String) : Str := s.data

/-- JavaScript `s.split(c)` for a single-character separator: splits at every
occurrence of `c`, keeping empty segments (`"".split(c) = [""]`,
`"a//b".split('/') = ["a","","b"]`). -/
def jsSplit (c : Char) : Str → List Str
  | [] => [[]]
  | x :: xs =>
    if x = c then [] :: jsSplit c xs
    else
      match jsSplit c xs with
      | [] => [[x]]
      | t :: ts => (x :: t) :: ts

/-- JavaScript `s.replace(pat, rep)` for a plain-string pattern: replaces the
first occurrence of `pat` only. -/
def jsReplaceFirst (pat rep : Str) : Str → Str
  | [] => if pat = [] then rep else []
  | c :: cs =>
    if pat.isPrefixOf (c :: cs) then rep ++ (c :: cs).drop pat.length
    else c :: jsReplaceFirst pat rep cs

/-- JavaScript template-literal coercion of a possibly-`undefined` string:
`undefined` prints as the text `"undefined"`. -/
def jsCoerce : Option Str → Str
  | none => str "undefined"
  | some s => s

/-- From `matchesDependency` (src/index.ts:716-721): the local
`depWithoutScope` / `sourceWithoutScope` computation,
`s.startsWith('@') ? s.split('/')[1] : s`.  For a scoped name with no `/`
the JavaScript index access yields `undefined`, modelled as `none`. -/
def withoutScope (s : Str) : Option Str :=
  if (str "@").isPrefixOf s then (jsSplit '/' s)[1]? else some s

/-- `dependency.replace(/^@types\//, '')` — the regex is anchored, so this
strips a leading `@types/` and leaves other strings unchanged. -/
def stripTypes (d : Str) : Str :=
  if (str "@types/").isPrefixOf d then d.drop 7 else d

/-- Embedding of `matchesDependency` (src/index.ts:715-732, identically
repeated at src/index.ts:2471-2488 and in the helpers revision).  The five
disjuncts are evaluated left to right exactly as in the source; when
`sourceWithoutScope` is `undefined` and reached by the fourth disjunct, the
JavaScript `sourceWithoutScope.startsWith(...)` call throws a `TypeError`,
modelled as `Except.error ()`. -/
def matchesDependency (importSource dependency : Str) : Except Unit Bool :=
  let depWithoutScope := withoutScope dependency
  let sourceWithoutScope := withoutScope importSource
  if importSource = dependency then .ok true
  else if (dependency ++ str "/").isPrefixOf importSource then .ok true
  else if sourceWithoutScope = depWithoutScope then .ok true
  else
    match sourceWithoutScope with
    | none => .error ()
    | some sw =>
      if (jsCoerce depWithoutScope ++ str "/").isPrefixOf sw then .ok true
      else if (str "@types/").isPrefixOf dependency then
        .ok (importSource = stripTypes dependency
          || (stripTypes dependency ++ str "/").isPrefixOf importSource)
      else .ok false

/-- From `processFilesInParallel` (src/index.ts:772-776): the batch size,
`Math.min(100, Math.max(10, Math.floor(maxMemory / (1024 * 1024 * 50))))`,
where `maxMemory` is the reported heap size limit in bytes. -/
def batchSize (maxMemory : Nat) : Nat :=
  min 100 (max 10 (maxMemory / (1024 * 1024 * 50)))

/-- From the batch loop of `processFilesInParallel` (src/index.ts:795-807):
the list of `processed` values passed to `onProgress`, one per batch.  Each
iteration reports `Math.min(index + batch.length, files.length)` where
`batch = files.slice(index, index + BATCH_SIZE)`, and the loop advances
`index` by `BATCH_SIZE`.  The `fuel` argument bounds the number of loop
iterations; `files.length` iterations always suffice since the batch size is
at least one. -/
def progressCalls (files : List Str) (B : Nat) : Nat → Nat → List Nat
  | 0, _ => []
  | fuel + 1, index =>
    if index < files.length then
      min (index + ((files.drop index).take B).length) files.length
        :: progressCalls files B fuel (index + B)
    else []

/-- The full progress-report sequence of one `processFilesInParallel` run
(src/index.ts:766-816): batch size from the heap limit, loop from index 0. -/
def processProgress (files : List Str) (maxMemory : Nat) : List Nat :=
  progressCalls files (batchSize maxMemory) files.length 0

/-- The script signal of `isDependencyUsedInFile` (src/index.ts:589-597):
for every script command line, `script.split(' ')` and test
`scriptParts.includes(dependency)`; return true on the first hit. -/
def scriptsSignal (scripts : List Str) (dependency : Str) : Bool :=
  scripts.any fun script => (jsSplit ' ' script).contains dependency

/-- Whitespace per the specification's phrase "split on whitespace". -/
def isWs (c : Char) : Bool :=
  c = ' ' || c = '\t' || c = '\n' || c = '\r'

/-- Splitting at every character satisfying `p`, keeping empty segments. -/
def splitOnPred (p : Char → Bool) : Str → List Str
  | [] => [[]]
  | x :: xs =>
    if p x then [] :: splitOnPred p xs
    else
      match splitOnPred p xs with
      | [] => [[x]]
      | t :: ts => (x :: t) :: ts

/-- Modelled from the spec: "for every script command line, split on
whitespace and check for an exact token equal to the dependency name" —
the whitespace-delimited tokens of a command line (maximal nonempty runs
of non-whitespace characters). -/
def wsTokens (s : Str) : List Str :=
  (splitOnPred isWs s).filter fun t => t ≠ []

/-- Modelled from the spec: the script signal as the spec words it —
some script has a whitespace-delimited token exactly equal to the
dependency name. -/
def specScriptSignal (scripts : List Str) (dependency : Str) : Bool :=
  scripts.any fun script => (wsTokens script).contains dependency

/-- Result of `parseConfigFile`: a parsed JSON structure, a parsed YAML
structure, or the raw file text.  `J` and `Y` are the (abstract) types of
parsed JSON and YAML values. -/
inductive ParsedConfig (J Y : Type) : Type where
  | json (j : J)
  | yaml (y : Y)
  | raw (text : Str)
deriving DecidableEq

/-- The body of `parseConfigFile` (src/index.ts:278-302) without its outer
`try`/`catch`: the `switch` on the lower-cased extension.  `jsonParse` and
`yamlParse` stand for `JSON.parse` and `yaml.parse` (`none` = the parser
throws); `yamlAvailable` models whether the dynamic `import('yaml')`
succeeded.  A thrown parse error is `Except.error ()`; the `default` branch
contains its own inner `try`/`catch` (src/index.ts:296-300) and therefore
never throws. -/
def parseConfigFileBody {J Y : Type} (jsonParse : Str → Option J)
    (yamlParse : Str → Option Y) (yamlAvailable : Bool)
    (extension content : Str) : Except Unit (ParsedConfig J Y) :=
  if extension = str ".json" then
    match jsonParse content with
    | some j => .ok (.json j)
    | none => .error ()
  else if extension = str ".yaml" ∨ extension = str ".yml" then
    if yamlAvailable then
      match yamlParse content with
      | some y => .ok (.yaml y)
      | none => .error ()
    else .ok (.raw content)
  else if extension = str ".js" ∨ extension = str ".cjs" ∨ extension = str ".mjs" then
    .ok (.raw content)
  else
    match jsonParse content with
    | some j => .ok (.json j)
    | none => .ok (.raw content)

/-- `parseConfigFile` (src/index.ts:274-307): the body guarded by the outer
`try`/`catch` whose handler returns the raw content. -/
def parseConfigFile {J Y : Type} (jsonParse : Str → Option J)
    (yamlParse : Str → Option Y) (yamlAvailable : Bool)
    (extension content : Str) : ParsedConfig J Y :=
  match parseConfigFileBody jsonParse yamlParse yamlAvailable extension content with
  | .ok v => v
  | .error _ => .raw content

/-- JavaScript `s.includes(pat)` substring containment. -/
def jsIncludes (pat : Str) : Str → Bool
  | [] => pat.isPrefixOf []
  | c :: cs => pat.isPrefixOf (c :: cs) || jsIncludes pat cs

/-- JavaScript `Set.prototype.add` on a list model: append if absent. -/
def insertIfAbsent (x : Str) (l : List Str) : List Str :=
  if l.contains x then l else l ++ [x]

/-- One pass of the inner `for (const [package_, deps] of
dependencyGraph.entries())` loop of `findTopLevelDependents`
(part_006:204-217), parameterized by the recursive call `recurse` used for
non-top-level dependents.  `recurse` returning `none` means the recursion
blew the stack; `none` is propagated. -/
def findTLDGo (topLevel : List Str) (recurse : Str → Option (List Str))
    (dep : Str) : List (Str × List Str) → List Str → Option (List Str)
  | [], dependents => some dependents
  | (pkg, deps) :: rest, dependents =>
    if deps.contains dep then
      if topLevel.contains pkg then
        findTLDGo topLevel recurse dep rest (insertIfAbsent pkg dependents)
      else
        match recurse pkg with
        | none => none
        | some parentDeps =>
          findTLDGo topLevel recurse dep rest
            (parentDeps.foldl (fun acc p => insertIfAbsent p acc) dependents)
    else findTLDGo topLevel recurse dep rest dependents

/-- Embedding of `findTopLevelDependents` (part_006:201-220).  The source
recursion carries no visited set and no other decreasing quantity, so the
embedding makes the available call-stack depth explicit as `fuel`; a `none`
result means the recursion exceeded every finite depth bound, i.e. the
JavaScript function never returns normally (in Node it dies with a stack
overflow). -/
def findTopLevelDependents (graph : List (Str × List Str))
    (topLevel : List Str) : Nat → Str → Option (List Str)
  | 0, _ => none
  | fuel + 1, dep =>
    findTLDGo topLevel (findTopLevelDependents graph topLevel fuel) dep graph []

/-- `DependencyInfo` (part_006:27-31 / src/interfaces.ts:33-37);
`requiredByPackages` is a JavaScript `Set`, modelled as a duplicate-free
list in insertion order. -/
structure DependencyInfo where
  usedInFiles : List Str
  requiredByPackages : List Str
  hasSubDependencyUsage : Bool
deriving DecidableEq, Repr

/-- The `types`/`typeRoots` compiler options read from `tsconfig.json`
(part_006:107-115); `getTSConfig` returning `none` models an unreadable or
unparsable tsconfig. -/
structure TSConfigOpts where
  types : List Str
  typeRoots : List Str

/-- The run-level inputs of `getDependencyInfo` (part_006:56-62), with the
engine's I/O collaborators made explicit: `usedInFile dep file` is the
verdict of `isDependencyUsedInFile`, `contextGraph` is
`context.dependencyGraph`, `installedAdjacency` is the adjacency map built
from every installed package's manifest (part_006:184-198), `tsConfig` is
`getTSConfig`'s result, and `searchFuel` is the call-stack depth available
to `findTopLevelDependents`. -/
structure DepParams where
  projectRoot : Str
  usedInFile : Str → Str → Bool
  sourceFiles : List Str
  topLevelDependencies : List Str
  contextGraph : List (Str × List Str)
  installedAdjacency : List (Str × List Str)
  tsConfig : Option TSConfigOpts
  searchFuel : Nat

/-- `hasTSFiles` (part_006:244-246). -/
def hasTSFiles (files : List Str) : Bool :=
  files.any fun file =>
    (str ".ts").isSuffixOf file || (str ".tsx").isSuffixOf file

/-- `normalizeTypesPackage` (part_006:35-45). -/
def normalizeTypesPackage (typesPackage : Str) : Str :=
  let basePackage := jsReplaceFirst (str "@types/") [] typesPackage
  if jsIncludes (str "__") basePackage then
    '@' :: jsReplaceFirst (str "__") (str "/") basePackage
  else if jsIncludes (str "/") basePackage then '@' :: basePackage
  else basePackage

/-- The `@types/*` branch of `getDependencyInfo` (part_006:75-118): the
compiler-required fast path for `@types/node`, the installed-base-package
requirer, the per-file usage scan restricted to `.ts`/`.tsx` files, and the
tsconfig `types`/`typeRoots` check.  Both source returns in this branch
(part_006:83-84 and part_006:117) skip the cache write at part_006:230. -/
def getDependencyInfoTypesBranch (P : DepParams) (dependency : Str) :
    DependencyInfo :=
  let basePackage := normalizeTypesPackage dependency
  if basePackage = str "node" ∧ hasTSFiles P.sourceFiles then
    { usedInFiles := []
      requiredByPackages := insertIfAbsent (str "typescript") []
      hasSubDependencyUsage := false }
  else
    let req0 : List Str :=
      if P.topLevelDependencies.contains basePackage then
        insertIfAbsent basePackage [] else []
    let used := P.sourceFiles.filter fun file =>
      ((str ".ts").isSuffixOf file || (str ".tsx").isSuffixOf file)
        && (P.usedInFile dependency file || P.usedInFile basePackage file)
    let req1 : List Str :=
      match P.tsConfig with
      | some opts =>
        if hasTSFiles P.sourceFiles
            && (opts.types.contains basePackage
              || opts.typeRoots.any fun root => jsIncludes basePackage root) then
          insertIfAbsent (str "typescript") req0
        else req0
      | none => req0
    { usedInFiles := used
      requiredByPackages := req1
      hasSubDependencyUsage := false }

/-- The non-`@types` path of `getDependencyInfo` (part_006:120-227): direct
per-file usage, sub-dependency usage from `context.dependencyGraph`, and the
transitive-requirer search over the installed-package adjacency map.  The
whole search sits inside `try { ... } catch { /* Ignore errors */ }`, so a
stack overflow of `findTopLevelDependents` (`none`) leaves
`requiredByPackages` at its initial empty value. -/
def getDependencyInfoMainBranch (P : DepParams) (dependency : Str) :
    DependencyInfo :=
  let subdeps := ((P.contextGraph.lookup dependency).getD [])
  let hasSub := P.sourceFiles.any fun file =>
    subdeps.any fun subdep => P.usedInFile subdep file
  let used := P.sourceFiles.filter fun file => P.usedInFile dependency file
  let req :=
    (findTopLevelDependents P.installedAdjacency P.topLevelDependencies
      P.searchFuel dependency).getD []
  { usedInFiles := used
    requiredByPackages := req
    hasSubDependencyUsage := hasSub }

/-- The mutable run state around `getDependencyInfo`: the `depInfoCache`
map (part_006:33), plus an instrumentation counter of how many times the
function body past the cache check has run (what the spec calls "computed"). -/
structure DepRunState where
  cache : List (Str × DependencyInfo)
  computations : Nat
deriving DecidableEq, Repr

/-- Embedding of `getDependencyInfo` (part_006:56-232): compute the cache
key `` `${projectRoot}:${dependency}` ``, return a cache hit unchanged,
otherwise compute.  Faithfully to the source, only the non-`@types` path
executes `depInfoCache.set(cacheKey, info)` (part_006:230); the `@types/*`
branch returns at part_006:83-84 or part_006:117 without writing the cache. -/
def getDependencyInfo (P : DepParams) (dependency : Str) (st : DepRunState) :
    DependencyInfo × DepRunState :=
  let cacheKey := P.projectRoot ++ ':' :: dependency
  match st.cache.lookup cacheKey with
  | some info => (info, st)
  | none =>
    if (str "@types/").isPrefixOf dependency then
      (getDependencyInfoTypesBranch P dependency,
        { st with computations := st.computations + 1 })
    else
      let info := getDependencyInfoMainBranch P dependency
      (info,
        { cache := (cacheKey, info) :: st.cache
          computations := st.computations + 1 })

/-- Modelled from the spec (§4.6 / §3 Unused Set): the initial-unused test
"every dependency whose `DependencyInfo.usedInFiles` is empty and whose
`requiredByPackages` is empty".  The resolver that consumes
`DependencyInfo` this way is described by the spec but absent from the
source tree. -/
def specInitiallyUnused (info : DependencyInfo) : Bool :=
  info.usedInFiles = [] && info.requiredByPackages = []

/-- The unused-set computation actually performed by `main`
(src/index.ts:1378-1408, likewise src/index.ts:2836-2862): one pass over the
declared dependencies, pushing every dependency whose
`processFilesInParallel` result (`usage dep`) is empty. -/
def mainUnusedDeps (usage : Str → List Str) (deps : List Str) : List Str :=
  deps.filter fun dep => usage dep = []

/-- Modelled from the spec (§4.6): one closure step — keep a dependency if
it is already in the unused set, or has no direct file usage and every
member of its `requiredByPackages` is already in the unused set. -/
def specClosureStep (usage requiredBy : Str → List Str) (deps : List Str)
    (unused : List Str) : List Str :=
  deps.filter fun dep =>
    unused.contains dep
      || (usage dep = [] && (requiredBy dep).all fun r => unused.contains r)

/-- Modelled from the spec (§4.6): the fixed-point closure — the initial
unused set (no direct usage and no requirers) closed under `specClosureStep`;
`deps.length` whole passes reach the least fixed point over this finite
domain. -/
def specUnusedClosure (usage requiredBy : Str → List Str) (deps : List Str) :
    List Str :=
  (specClosureStep usage requiredBy deps)^[deps.length]
    (deps.filter fun dep => usage dep = [] && requiredBy dep = [])

/-! ## Helper lemmas -/

/-- Boolean prefix test is the prefix relation. -/
theorem isPrefixOf_append_self (l t : Str) : l.isPrefixOf (l ++ t) = true := by
  rw [ List.isPrefixOf_iff_prefix]
  exact List.prefix_append l t

/-- `jsSplit` on a string not containing the separator. -/
theorem jsSplit_of_not_mem (c : Char) (l : Str) (h : c ∉ l) :
    jsSplit c l = [l] := by
  induction l with
  | nil => rfl
  | cons a as ih =>
    have ha : a ≠ c := fun hac => h (hac ▸ List.mem_cons_self a as)
    have has : c ∉ as := fun hcs => h (List.mem_cons_of_mem a hcs)
    unfold jsSplit
    rw [if_neg ha, ih has]

/-- `jsSplit` splits at the first separator occurrence. -/
theorem jsSplit_append (c : Char) (l₁ l₂ : Str) (h : c ∉ l₁) :
    jsSplit c (l₁ ++ c :: l₂) = l₁ :: jsSplit c l₂ := by
  induction l₁ with
  | nil => simp [jsSplit]
  | cons a as ih =>
    have ha : a ≠ c := fun hac => h (hac ▸ List.mem_cons_self a as)
    have has : c ∉ as := fun hcs => h (List.mem_cons_of_mem a hcs)
    rw [List.cons_append]
    conv_lhs => rw [jsSplit]
    rw [if_neg ha, ih has]

/-- `withoutScope` of a well-formed scoped name `@scope/rest` (no `/` in
either part) is the part after the first slash. -/
theorem withoutScope_scoped (a rest : Str) (ha : '/' ∉ a) (hr : '/' ∉ rest) :
    withoutScope ('@' :: a ++ '/' :: rest) = some rest := by
  unfold withoutScope
  have hpre : (str "@").isPrefixOf ('@' :: a ++ '/' :: rest) = true := by
    rw [ List.isPrefixOf_iff_prefix]
    exact ⟨a ++ '/' :: rest, rfl⟩
  have hsplit : jsSplit '/' ('@' :: a ++ '/' :: rest)
      = ('@' :: a) :: jsSplit '/' rest := by
    have : '@' :: a ++ '/' :: rest = ('@' :: a) ++ '/' :: rest := rfl
    rw [this, jsSplit_append]
    simp [ha]
  rw [if_pos hpre, hsplit, jsSplit_of_not_mem '/' rest hr]
  rfl

/-- `withoutScope` of an unscoped name is the name itself. -/
theorem withoutScope_unscoped (x : Str)
    (hx : (str "@").isPrefixOf x = false) :
    withoutScope x = some x := by
  unfold withoutScope
  rw [hx]
  rfl

/-- If source and dependency have the same scope-stripped form, the third
disjunct of `matchesDependency` fires (unless an earlier one already did). -/
theorem matchesDependency_of_withoutScope_eq (s d w : Str)
    (hs : withoutScope s = some w) (hd : withoutScope d = some w) :
    matchesDependency s d = .ok true := by
  unfold matchesDependency
  by_cases h1 : s = d
  · simp [h1]
  · by_cases h2 : (d ++ str "/").isPrefixOf s = true
    · simp [h1, h2]
    · simp [h1, h2, hs, hd]

/-- A cons on top preserves a known last element. -/
theorem getLast?_cons_of_getLast? (a : Nat) (l : List Nat) (x : Nat)
    (h : l.getLast? = some x) : (a :: l).getLast? = some x := by
  cases l with
  | nil => simp at h
  | cons b bs => rw [List.getLast?_cons_cons]; exact h

/-- Out-of-range start index yields no further progress reports. -/
theorem progressCalls_nil_of_le (files : List Str) (B fuel index : Nat)
    (h : files.length ≤ index) : progressCalls files B fuel index = [] := by
  cases fuel with
  | zero => rfl
  | succ n =>
    unfold progressCalls
    rw [if_neg (by omega)]

/-- Loop invariant of the batch loop: with a positive batch size and enough
fuel, every reported count lies strictly between the running index and the
file total, successive reports strictly increase, and the last report equals
the total. -/
theorem progressCalls_spec (files : List Str) (B : Nat) (hB : 1 ≤ B) :
    ∀ fuel index, files.length ≤ fuel + index →
      (∀ p ∈ progressCalls files B fuel index,
          index < p ∧ p ≤ files.length)
      ∧ List.Chain' (· < ·) (progressCalls files B fuel index)
      ∧ (index < files.length →
          (progressCalls files B fuel index).getLast? = some files.length) := by
  intro fuel
  induction fuel with
  | zero =>
    intro index h
    refine ⟨by simp [progressCalls], by simp [progressCalls], fun hlt => ?_⟩
    omega
  | succ n ih =>
    intro index h
    by_cases hidx : index < files.length
    · have hbatch : ((files.drop index).take B).length
          = min B (files.length - index) := by
        simp [List.length_take, List.length_drop]
      have hble : min B (files.length - index) ≤ files.length - index :=
        min_le_right _ _
      have hb1 : 1 ≤ min B (files.length - index) := le_min hB (by omega)
      have hp : min (index + ((files.drop index).take B).length) files.length
          = index + min B (files.length - index) := by
        rw [hbatch]
        omega
      have heq : progressCalls files B (n + 1) index
          = (index + min B (files.length - index))
            :: progressCalls files B n (index + B) := by
        conv_lhs => rw [progressCalls]
        rw [if_pos hidx, hp]
      obtain ⟨ihmem, ihchain, ihlast⟩ := ih (index + B) (by omega)
      refine ⟨?_, ?_, ?_⟩
      · intro p hp'
        rw [heq] at hp'
        rcases List.mem_cons.mp hp' with rfl | hmem
        · omega
        · have := ihmem p hmem
          omega
      · rw [heq]
        refine List.chain'_cons'.mpr ⟨?_, ihchain⟩
        intro y hy
        have hymem : y ∈ progressCalls files B n (index + B) :=
          List.mem_of_mem_head? hy
        have := ihmem y hymem
        have hmle : min B (files.length - index) ≤ B := min_le_left _ _
        omega
      · intro _
        rw [heq]
        by_cases hnext : index + B < files.length
        · exact getLast?_cons_of_getLast? _ _ _ (ihlast hnext)
        · have hnil : progressCalls files B n (index + B) = [] :=
            progressCalls_nil_of_le files B n (index + B) (by omega)
          have hlast : index + min B (files.length - index) = files.length := by
            omega
          rw [hnil, hlast]
          rfl
    · have hnil : progressCalls files B (n + 1) index = [] :=
        progressCalls_nil_of_le files B (n + 1) index (by omega)
      refine ⟨by simp [hnil], by simp [hnil], fun hlt => absurd hlt hidx⟩

/-! ## Claims -/

/-- C3: for every dependency name `d` (scoped names included) and every
source string `s` equal to `d` or to `d` followed by `/` and any sub-path,
`matchesDependency s d` returns true, so the import is accepted as evidence
of use regardless of the sub-path suffix. -/
theorem C3_subpath_matches (d s : Str)
    (h : s = d ∨ ∃ sub, s = d ++ '/' :: sub) :
    matchesDependency s d = .ok true := by
  rcases h with rfl | ⟨sub, rfl⟩
  · unfold matchesDependency
    simp
  · unfold matchesDependency
    by_cases h1 : d ++ '/' :: sub = d
    · simp [h1]
    · have h2 : (d ++ str "/").isPrefixOf (d ++ '/' :: sub) = true := by
        have harr : d ++ str "/" ++ sub = d ++ '/' :: sub := by
          simp [str]
        rw [← harr]
        exact isPrefixOf_append_self (d ++ str "/") sub
      simp [h1, h2]

/-- Witness for C3 at a concrete scoped dependency and sub-path import. -/
theorem C3_subpath_matches_witness :
    matchesDependency (str "@babel/core/lib/index") (str "@babel/core")
      = .ok true :=
  C3_subpath_matches (str "@babel/core") (str "@babel/core/lib/index")
    (Or.inr ⟨str "lib/index", by decide⟩)

/-- C4: for every reported heap size limit, the batch size of
`processFilesInParallel` equals `min 100 (max 10 (heap / 50MB))` and lies in
the closed interval `[10, 100]`. -/
theorem C4_batch_size (maxMemory : Nat) :
    batchSize maxMemory
        = min 100 (max 10 (maxMemory / (1024 * 1024 * 50)))
      ∧ 10 ≤ batchSize maxMemory ∧ batchSize maxMemory ≤ 100 := by
  refine ⟨rfl, ?_, ?_⟩
  · exact le_min (by norm_num) (le_max_left _ _)
  · exact min_le_left _ _

/-- C5: for every nonempty file list and heap limit, the processed counts
reported by `processFilesInParallel`'s batch loop strictly increase, never
exceed the file total, and the last report equals the total. -/
theorem C5_progress_monotone (files : List Str) (maxMemory : Nat)
    (h : files ≠ []) :
    List.Chain' (· < ·) (processProgress files maxMemory)
      ∧ (∀ p ∈ processProgress files maxMemory, p ≤ files.length)
      ∧ (processProgress files maxMemory).getLast? = some files.length := by
  have hB : 1 ≤ batchSize maxMemory := by
    have : 10 ≤ batchSize maxMemory := le_min (by norm_num) (le_max_left _ _)
    omega
  obtain ⟨hm, hc, hl⟩ :=
    progressCalls_spec files (batchSize maxMemory) hB files.length 0 (by omega)
  have hlen : 0 < files.length := List.length_pos.mpr h
  exact ⟨hc, fun p hp => (hm p hp).2, hl hlen⟩

/-- Witness for C5 on a concrete one-file corpus. -/
theorem C5_progress_monotone_witness :
    List.Chain' (· < ·) (processProgress [str "a.ts"] 0)
      ∧ (∀ p ∈ processProgress [str "a.ts"] 0, p ≤ [str "a.ts"].length)
      ∧ (processProgress [str "a.ts"] 0).getLast? = some [str "a.ts"].length :=
  C5_progress_monotone [str "a.ts"] 0 (by decide)

/-- C6 counterexample: the claim says the script signal fires iff splitting
the command line on *whitespace* yields a token equal to the dependency
name.  The source splits on the space character only
(`script.split(' ')`, src/index.ts:592), so a tab-separated command line
refutes the equivalence: whitespace-splitting `"tsc\ta-dep"` yields the
exact token `a-dep`, yet the signal does not fire. -/
theorem C6_counterexample :
    ¬ (scriptsSignal [str "tsc\ta-dep"] (str "a-dep")
        = specScriptSignal [str "tsc\ta-dep"] (str "a-dep")) := by
  decide

/-- C6 amended: the script signal fires iff some script command line, split
on the space character (exactly JavaScript `split(' ')`), contains a token
exactly equal to the dependency name; in particular a dependency name that
is merely a substring of a token is never matched. -/
theorem C6_amended_space_token (scripts : List Str) (dependency : Str) :
    scriptsSignal scripts dependency = true
      ↔ ∃ script ∈ scripts, dependency ∈ jsSplit ' ' script := by
  unfold scriptsSignal
  rw [List.any_eq_true]
  constructor
  · rintro ⟨script, hmem, hc⟩
    exact ⟨script, hmem, by simpa using hc⟩
  · rintro ⟨script, hmem, hc⟩
    exact ⟨script, hmem, by simpa using hc⟩

/-- Witness for the amended C6: an exact space-separated token fires the
signal. -/
theorem C6_amended_space_token_witness :
    scriptsSignal [str "tsc a-dep"] (str "a-dep") = true :=
  (C6_amended_space_token [str "tsc a-dep"] (str "a-dep")).mpr
    ⟨str "tsc a-dep", by decide, by decide⟩

/-- C7: `parseConfigFile` never propagates a parse failure — whenever the
relevant parsers reject the content, the raw text is returned instead; and
for `.js`/`.cjs`/`.mjs` files the raw text is returned no matter what any
parser would say (the file is never evaluated). -/
theorem C7_parse_failure_raw (J Y : Type) (jsonParse : Str → Option J)
    (yamlParse : Str → Option Y) (yamlAvailable : Bool)
    (extension content : Str) :
    (jsonParse content = none → yamlParse content = none →
      parseConfigFile jsonParse yamlParse yamlAvailable extension content
        = .raw content)
    ∧ (extension = str ".js" ∨ extension = str ".cjs" ∨ extension = str ".mjs" →
      ∀ (J' Y' : Type) (jp : Str → Option J') (yp : Str → Option Y'),
        parseConfigFile jp yp yamlAvailable extension content = .raw content) := by
  constructor
  · intro hj hy
    unfold parseConfigFile parseConfigFileBody
    by_cases h1 : extension = str ".json"
    · simp [h1, hj]
    · by_cases h2 : extension = str ".yaml" ∨ extension = str ".yml"
      · cases ya : yamlAvailable with
        | true => simp [h1, h2, ya, hy]
        | false => simp [h1, h2, ya]
      · by_cases h3 : extension = str ".js" ∨ extension = str ".cjs"
            ∨ extension = str ".mjs"
        · simp [h1, h2, h3]
        · simp [h1, h2, h3, hj]
  · intro h3 J' Y' jp yp
    have h1 : ¬ extension = str ".json" := by
      rcases h3 with h | h | h <;> subst h <;> decide
    have h2 : ¬ (extension = str ".yaml" ∨ extension = str ".yml") := by
      rcases h3 with h | h | h <;> subst h <;> decide
    unfold parseConfigFile parseConfigFileBody
    simp [h1, h2, h3]

/-- Witness for C7: unparsable content under a `.json` extension comes back
as raw text. -/
theorem C7_parse_failure_raw_witness :
    parseConfigFile (fun _ => (none : Option Unit))
        (fun _ => (none : Option Unit)) true (str ".json") (str "oops")
      = .raw (str "oops") :=
  (C7_parse_failure_raw Unit Unit (fun _ => none) (fun _ => none) true
    (str ".json") (str "oops")).1 rfl rfl

/-- C10 (implicit behavior): the scope-stripping disjunct of
`matchesDependency` makes an import of `@b/x` — any other scope — or of the
bare name `x` count as a match for the scoped dependency `@a/x`, so such a
file is accepted as evidence of use for `@a/x`. -/
theorem C10_scope_stripping (a b x : Str) (ha : '/' ∉ a) (hb : '/' ∉ b)
    (hx : '/' ∉ x) (hxa : (str "@").isPrefixOf x = false) :
    matchesDependency ('@' :: b ++ '/' :: x) ('@' :: a ++ '/' :: x) = .ok true
    ∧ matchesDependency x ('@' :: a ++ '/' :: x) = .ok true := by
  have hd : withoutScope ('@' :: a ++ '/' :: x) = some x :=
    withoutScope_scoped a x ha hx
  have hs : withoutScope ('@' :: b ++ '/' :: x) = some x :=
    withoutScope_scoped b x hb hx
  have hx' : withoutScope x = some x := withoutScope_unscoped x hxa
  exact ⟨matchesDependency_of_withoutScope_eq _ _ x hs hd,
    matchesDependency_of_withoutScope_eq _ _ x hx' hd⟩

/-- Witness for C10: importing `@other/core` or bare `core` matches the
dependency `@scope/core`. -/
theorem C10_scope_stripping_witness :
    matchesDependency ('@' :: str "other" ++ '/' :: str "core")
        ('@' :: str "scope" ++ '/' :: str "core") = .ok true
    ∧ matchesDependency (str "core")
        ('@' :: str "scope" ++ '/' :: str "core") = .ok true :=
  C10_scope_stripping (str "scope") (str "other") (str "core")
    (by decide) (by decide) (by decide) (by decide)

/-- C1 counterexample: the claim says the unused-set computation performs
the spec's fixed-point closure.  `main` (src/index.ts:1378-1408) instead
marks every dependency with an empty scan result as unused in a single pass
and never consults `requiredByPackages`: with a dependency `helper` that has
no direct usage but is required by the directly-used top-level dependency
`used-dep`, `main` reports `helper` unused while the claimed closure reports
nothing unused. -/
theorem C1_counterexample :
    ¬ (mainUnusedDeps
        (fun d => if d = str "used-dep" then [str "f.ts"] else [])
        [str "used-dep", str "helper"]
      = specUnusedClosure
        (fun d => if d = str "used-dep" then [str "f.ts"] else [])
        (fun d => if d = str "helper" then [str "used-dep"] else [])
        [str "used-dep", str "helper"]) := by
  decide

/-- C1 amended: the shipped unused-set computation is the single pass
"no direct usage ⇒ unused"; it is a sound over-approximation of the spec's
fixed-point closure (every dependency the closure marks unused, `main` also
marks unused), and on the A←B←C chain — all three without direct usage —
both computations still place A, B and C in the unused set, which is the
behaviour the claim's example describes. -/
theorem C1_amended_single_pass :
    (∀ (usage requiredBy : Str → List Str) (deps : List Str) (x : Str),
        x ∈ specUnusedClosure usage requiredBy deps
          → x ∈ mainUnusedDeps usage deps)
    ∧ mainUnusedDeps (fun _ => []) [str "A", str "B", str "C"]
        = [str "A", str "B", str "C"]
    ∧ specUnusedClosure (fun _ => [])
        (fun d => if d = str "A" then [str "B"]
          else if d = str "B" then [str "C"] else [])
        [str "A", str "B", str "C"]
        = [str "A", str "B", str "C"] := by
  refine ⟨?_, by decide, by decide⟩
  intro usage requiredBy deps x hx
  suffices hinv : ∀ (n : Nat) (S : List Str),
      (∀ y ∈ S, y ∈ deps ∧ usage y = []) →
      ∀ y ∈ (specClosureStep usage requiredBy deps)^[n] S,
        y ∈ deps ∧ usage y = [] by
    have hx' := hinv deps.length
      (deps.filter fun dep => usage dep = [] && requiredBy dep = [])
      (by
        intro y hy
        have := List.mem_filter.mp hy
        refine ⟨this.1, ?_⟩
        have h2 := this.2
        simp only [Bool.and_eq_true, decide_eq_true_eq] at h2
        exact h2.1)
      x hx
    unfold mainUnusedDeps
    exact List.mem_filter.mpr ⟨hx'.1, by simp [hx'.2]⟩
  intro n
  induction n with
  | zero =>
    intro S hS y hy
    simpa using hS y (by simpa using hy)
  | succ k ihk =>
    intro S hS y hy
    rw [Function.iterate_succ_apply] at hy
    refine ihk (specClosureStep usage requiredBy deps S) ?_ y hy
    intro z hz
    have hz' := List.mem_filter.mp hz
    refine ⟨hz'.1, ?_⟩
    have h2 := hz'.2
    simp only [Bool.or_eq_true, Bool.and_eq_true, decide_eq_true_eq] at h2
    rcases h2 with hzin | ⟨hzu, _⟩
    · exact (hS z (by simpa using hzin)).2
    · exact hzu

/-- Witness for C1 amended: applying the soundness direction on the chain
input, C is in the closure and therefore also in `main`'s unused set. -/
theorem C1_amended_single_pass_witness :
    str "C" ∈ mainUnusedDeps (fun _ => []) [str "A", str "B", str "C"] :=
  C1_amended_single_pass.1 (fun _ => [])
    (fun d => if d = str "A" then [str "B"]
      else if d = str "B" then [str "C"] else [])
    [str "A", str "B", str "C"] (str "C") (by decide)

/-- C2: the claim (and the spec) require the reverse-reachability search to
terminate on every installed-package graph, cycles included, by tracking
visited nodes.  `findTopLevelDependents` (part_006:201-220) carries no
visited set: on the cyclic graph `a → {x, b}`, `b → {a}` with no top-level
dependencies, the query for `x` recurses `a → b → a → …` and yields no
result at any finite recursion depth — the code, run as written, never
returns (Node kills it with a stack-overflow `RangeError`, which the
enclosing `catch` then swallows, leaving `requiredByPackages` empty). -/
theorem C2_nontermination_on_cycle :
    ∀ fuel,
      findTopLevelDependents
        [(str "a", [str "x", str "b"]), (str "b", [str "a"])] []
        fuel (str "x") = none := by
  have key : ∀ fuel,
      findTopLevelDependents
        [(str "a", [str "x", str "b"]), (str "b", [str "a"])] []
        fuel (str "a") = none
      ∧ findTopLevelDependents
        [(str "a", [str "x", str "b"]), (str "b", [str "a"])] []
        fuel (str "b") = none := by
    intro fuel
    induction fuel with
    | zero => exact ⟨rfl, rfl⟩
    | succ n ih =>
      constructor
      · have e : findTopLevelDependents
            [(str "a", [str "x", str "b"]), (str "b", [str "a"])] []
            (n + 1) (str "a")
            = match findTopLevelDependents
                [(str "a", [str "x", str "b"]), (str "b", [str "a"])] []
                n (str "b") with
              | none => none
              | some parentDeps =>
                some (parentDeps.foldl (fun acc p => insertIfAbsent p acc) []) :=
          rfl
        rw [e, ih.2]
      · have e : findTopLevelDependents
            [(str "a", [str "x", str "b"]), (str "b", [str "a"])] []
            (n + 1) (str "b")
            = match findTopLevelDependents
                [(str "a", [str "x", str "b"]), (str "b", [str "a"])] []
                n (str "a") with
              | none => none
              | some parentDeps =>
                findTLDGo []
                  (findTopLevelDependents
                    [(str "a", [str "x", str "b"]), (str "b", [str "a"])] [] n)
                  (str "b") [(str "b", [str "a"])]
                  (parentDeps.foldl (fun acc p => insertIfAbsent p acc) []) :=
          rfl
        rw [e, ih.1]
  intro fuel
  cases fuel with
  | zero => rfl
  | succ n =>
    have e : findTopLevelDependents
        [(str "a", [str "x", str "b"]), (str "b", [str "a"])] []
        (n + 1) (str "x")
        = match findTopLevelDependents
            [(str "a", [str "x", str "b"]), (str "b", [str "a"])] []
            n (str "a") with
          | none => none
          | some parentDeps =>
            findTLDGo []
              (findTopLevelDependents
                [(str "a", [str "x", str "b"]), (str "b", [str "a"])] [] n)
              (str "x") [(str "b", [str "a"])]
              (parentDeps.foldl (fun acc p => insertIfAbsent p acc) []) :=
      rfl
    rw [e, (key n).1]

/-- C8 counterexample: the claim says every `(projectRoot, dependency)` key
is computed at most once per run, a second call returning the identical
cached object.  The `@types/*` branch of `getDependencyInfo` returns at
part_006:83-84 / part_006:117 *before* the `depInfoCache.set` at
part_006:230, so for the key `(/p, @types/foo)` two consecutive calls run
the computation twice and the cache stays empty. -/
theorem C8_counterexample :
    (getDependencyInfo ⟨str "/p", fun _ _ => false, [], [], [], [], none, 0⟩
        (str "@types/foo")
        (getDependencyInfo ⟨str "/p", fun _ _ => false, [], [], [], [], none, 0⟩
          (str "@types/foo") ⟨[], 0⟩).2).2.computations = 2
    ∧ (getDependencyInfo ⟨str "/p", fun _ _ => false, [], [], [], [], none, 0⟩
        (str "@types/foo") ⟨[], 0⟩).2.cache = [] := by
  decide

/-- C8 amended: for every dependency *not* under `@types/`, the record is
computed at most once per run — on any state, a second call with the same
key returns exactly the first call's record and leaves the run state (cache
and computation count) unchanged.  `@types/*` dependencies are recomputed on
every call and never cached. -/
theorem C8_amended_cache_non_types (P : DepParams) (dep : Str)
    (st : DepRunState) (h : (str "@types/").isPrefixOf dep = false) :
    getDependencyInfo P dep (getDependencyInfo P dep st).2
      = ((getDependencyInfo P dep st).1, (getDependencyInfo P dep st).2) := by
  unfold getDependencyInfo
  cases hc : st.cache.lookup (P.projectRoot ++ ':' :: dep) with
  | some info => simp [hc]
  | none => simp [hc, h, List.lookup]

/-- Witness for the amended C8 on a concrete non-`@types` dependency. -/
theorem C8_amended_cache_non_types_witness :
    getDependencyInfo ⟨str "/p", fun _ _ => false, [], [], [], [], none, 1⟩
        (str "lodash")
        (getDependencyInfo
          ⟨str "/p", fun _ _ => false, [], [], [], [], none, 1⟩
          (str "lodash") ⟨[], 0⟩).2
      = ((getDependencyInfo
            ⟨str "/p", fun _ _ => false, [], [], [], [], none, 1⟩
            (str "lodash") ⟨[], 0⟩).1,
          (getDependencyInfo
            ⟨str "/p", fun _ _ => false, [], [], [], [], none, 1⟩
            (str "lodash") ⟨[], 0⟩).2) :=
  C8_amended_cache_non_types
    ⟨str "/p", fun _ _ => false, [], [], [], [], none, 1⟩
    (str "lodash") ⟨[], 0⟩ (by decide)

/-- C9: whenever at least one source file ends in `.ts` or `.tsx`,
`getDependencyInfo` for `@types/node` takes the compiler-required fast path
(part_006:81-84): `requiredByPackages` comes back as exactly
`{typescript}`, independent of every import and of every other input, so
under the spec's unused rule (empty `usedInFiles` *and* empty
`requiredByPackages`) the dependency is treated as used and excluded from
the unused set. -/
theorem C9_types_node_ts_files (P : DepParams)
    (hts : hasTSFiles P.sourceFiles = true) :
    (getDependencyInfo P (str "@types/node") ⟨[], 0⟩).1.requiredByPackages
        = [str "typescript"]
    ∧ specInitiallyUnused
        (getDependencyInfo P (str "@types/node") ⟨[], 0⟩).1 = false := by
  have hnorm : normalizeTypesPackage (str "@types/node") = str "node" := by
    decide
  have hbranch : getDependencyInfoTypesBranch P (str "@types/node")
      = { usedInFiles := []
          requiredByPackages := [str "typescript"]
          hasSubDependencyUsage := false } := by
    unfold getDependencyInfoTypesBranch
    rw [hnorm]
    simp [hts, insertIfAbsent]
  have hwrap : (getDependencyInfo P (str "@types/node") ⟨[], 0⟩).1
      = getDependencyInfoTypesBranch P (str "@types/node") := by
    unfold getDependencyInfo
    simp [List.lookup]
    rw [if_pos (by decide)]
  rw [hwrap, hbranch]
  exact ⟨rfl, by decide⟩

/-- Witness for C9: a project with a single `.ts` file and no usage oracle
hits at all still reports `@types/node` as required by the compiler. -/
theorem C9_types_node_ts_files_witness :
    (getDependencyInfo
        ⟨str "/p", fun _ _ => false, [str "a.ts"], [], [], [], none, 0⟩
        (str "@types/node") ⟨[], 0⟩).1.requiredByPackages
        = [str "typescript"]
    ∧ specInitiallyUnused
        (getDependencyInfo
          ⟨str "/p", fun _ _ => false, [str "a.ts"], [], [], [], none, 0⟩
          (str "@types/node") ⟨[], 0⟩).1 = false :=
  C9_types_node_ts_files
    ⟨str "/p", fun _ _ => false, [str "a.ts"], [], [], [], none, 0⟩
    (by decide)
